import Mathlib

/-!
Verification of the flashcard application's core logic.

The definitions below are shallow embeddings of the functions in
`src/app/page.tsx` (and, for the refinement claim, the second copy of the
CSV parser in `src/unnamed/part_000`).  Strings are Lean `String`s
(lists of characters); the imperative character scan of `parseCSV` is
written as a recursion over the list of characters, keeping the same
accumulators (`rows`, `currentRow`, `currentCell`, `insideQuotes`) and the
same branch structure.  The JavaScript one-character lookahead
(`text[i + 1]`, together with the `i++` skips) is rendered by matching on
the next one or two characters of the remaining input: the `[c]` arm is
the loop iteration in which `nextChar` is `undefined`, and the
`c :: d :: rest` arm is the iteration in which `nextChar` is `d`.

Platform string primitives used by the source (`String.prototype.trim`,
`String.prototype.toLowerCase`, `String.prototype.normalize` with the
NFKC form, and `replace` with the whitespace regexp) are not repository
code; they are modelled by `trimChars`/`jsTrim`, `toLowerCh`/`lowerStr`,
`nfkcChar`/`nfkcStr` (a partial table of the NFKC mapping, sufficient
for the characters considered in this development) and `stripSpaces`.
`Math.random` is modelled by an arbitrary function `rand : Nat → Nat`
giving, for each loop index `i`, the value `Math.floor(Math.random() *
(i + 1))` drawn at that iteration; real outcomes always satisfy
`rand i ≤ i`.

The stateful React component is embedded as a state type `AppState`
holding the `useState` cells that the claims concern, with the event
handlers (`handleStartGame`, `handleGameFinish`, plus screen navigation)
as state transformers and a step relation `Step` describing one user
interaction.
-/

/-- The `Card` record type of `src/app/page.tsx` (`{id, question, answer}`). -/
structure Card where
  id : Nat
  question : String
  answer : String
deriving DecidableEq

/-- Model of the platform primitive `String.prototype.trim`: remove leading
and trailing whitespace characters. -/
def trimChars (l : List Char) : List Char :=
  ((l.dropWhile Char.isWhitespace).reverse.dropWhile Char.isWhitespace).reverse

/-- `jsTrim s` is `s.trim()` of the source, via `trimChars`. -/
def jsTrim (s : String) : String :=
  ⟨trimChars s.data⟩

/-- The row-retention check of `parseCSV` (`src/app/page.tsx` lines 111-114):
after pushing the current cell onto the current row, the completed row is
kept unless it is the degenerate single empty field produced by a blank
line (`currentRow.length > 1 || (currentRow.length === 1 && currentRow[0]
!== '')`). -/
def pushRow (rows : List (List String)) (newRow : List String) : List (List String) :=
  if newRow.length > 1 ∨ (newRow.length = 1 ∧ newRow.headD "" ≠ "") then
    rows ++ [newRow]
  else
    rows

/-- The character scan of `parseCSV` (`src/app/page.tsx` lines 95-124).
State: accumulated `rows`, the `currentRow`, the `currentCell`, and the
`insideQuotes` flag.  The `[c]` arm handles the final character (whose
lookahead `nextChar` is `undefined`, so neither the doubled-quote test nor
the CRLF test can fire); the `c :: d :: rest` arm handles a character whose
lookahead is `d`, and consumes `d` as well exactly where the source does
`i++`.  The empty arm is the final flush after the loop (lines 121-124),
which pushes the pending cell and row whenever either is non-empty. -/
def scanCSV : List Char → List (List String) → List String → String → Bool → List (List String)
  | [], rows, currentRow, currentCell, _ =>
    if currentCell ≠ "" ∨ currentRow ≠ [] then rows ++ [currentRow ++ [currentCell]] else rows
  | [c], rows, currentRow, currentCell, insideQuotes =>
    if c = '"' then
      scanCSV [] rows currentRow currentCell (!insideQuotes)
    else if c = ',' ∧ insideQuotes = false then
      scanCSV [] rows (currentRow ++ [currentCell]) "" insideQuotes
    else if (c = '\r' ∨ c = '\n') ∧ insideQuotes = false then
      scanCSV [] (pushRow rows (currentRow ++ [currentCell])) [] "" insideQuotes
    else
      scanCSV [] rows currentRow (currentCell.push c) insideQuotes
  | c :: d :: rest, rows, currentRow, currentCell, insideQuotes =>
    if c = '"' then
      if insideQuotes ∧ d = '"' then
        scanCSV rest rows currentRow (currentCell.push '"') insideQuotes
      else
        scanCSV (d :: rest) rows currentRow currentCell (!insideQuotes)
    else if c = ',' ∧ insideQuotes = false then
      scanCSV (d :: rest) rows (currentRow ++ [currentCell]) "" insideQuotes
    else if (c = '\r' ∨ c = '\n') ∧ insideQuotes = false then
      if c = '\r' ∧ d = '\n' then
        scanCSV rest (pushRow rows (currentRow ++ [currentCell])) [] "" insideQuotes
      else
        scanCSV (d :: rest) (pushRow rows (currentRow ++ [currentCell])) [] "" insideQuotes
    else
      scanCSV (d :: rest) rows currentRow (currentCell.push c) insideQuotes

/-- The row phase of `parseCSV`: scan the whole text starting from the
empty state (`src/app/page.tsx` lines 90-124). -/
def parseRows (text : String) : List (List String) :=
  scanCSV text.data [] [] "" false

/-- The record-building loop of `parseCSV` (`src/app/page.tsx` lines
126-137): each row with at least two fields yields a card whose `id` is the
running row counter and whose question and answer are the first two fields
trimmed (`row[0].trim()`, `row[1].trim()`); all other rows are skipped. -/
def rowsToCards : List (List String) → Nat → List Card
  | [], _ => []
  | row :: rest, i =>
    match row with
    | q :: a :: _ => { id := i, question := jsTrim q, answer := jsTrim a } :: rowsToCards rest (i + 1)
    | _ => rowsToCards rest (i + 1)

/-- `parseCSV` of `src/app/page.tsx` (lines 89-138): the text is scanned
into rows, row 0 (the header) is skipped, and the loop
`for (let i = 1; i < rows.length; i++)` builds the cards with `id := i`. -/
def parseCSV (text : String) : List Card :=
  rowsToCards ((parseRows text).drop 1) 1

/-- Partial model of the platform NFKC normalization primitive
(`String.prototype.normalize` as called at `src/app/page.tsx` line 55):
half-width katakana map to their full-width forms, every other character is
unchanged.  The table covers the half-width katakana exercised in this
development; the genuine primitive agrees with it on all strings considered
here. -/
def nfkcChar (c : Char) : Char :=
  if c = 'ﾈ' then 'ネ'
  else if c = 'ｺ' then 'コ'
  else if c = 'ｱ' then 'ア'
  else if c = 'ｲ' then 'イ'
  else if c = 'ｶ' then 'カ'
  else c

/-- NFKC normalization of a whole string, character by character. -/
def nfkcStr (s : String) : String :=
  ⟨s.data.map nfkcChar⟩

/-- Model of the platform primitive `String.prototype.toLowerCase`,
character by character: ASCII uppercase letters (code points 65-90) are
shifted by 32 to their lowercase forms, all other characters are
unchanged. -/
def toLowerCh (c : Char) : Char :=
  if h : 65 ≤ c.toNat ∧ c.toNat ≤ 90 then
    ⟨c.val + 32, by
      have h90 : c.val.toNat ≤ 90 := h.2
      have h32 : (32 : UInt32).toNat = 32 := rfl
      have hs : UInt32.size = 4294967296 := rfl
      have hv : (c.val + 32).toNat = c.val.toNat + 32 := by
        rw [UInt32.toNat_add, h32]
        exact Nat.mod_eq_of_lt (by omega)
      exact Or.inl (by rw [hv]; omega)⟩
  else c

/-- Lower-casing of a whole string, character by character. -/
def lowerStr (s : String) : String :=
  ⟨s.data.map toLowerCh⟩

/-- Model of `replace` of all whitespace runs by the empty string
(`src/app/page.tsx` line 57): every whitespace character is removed. -/
def stripSpaces (s : String) : String :=
  ⟨s.data.filter (fun c => !c.isWhitespace)⟩

/-- `normalizeString` of `src/app/page.tsx` (lines 51-58): empty input
short-circuits to the empty string (`if (!str) return ''`), otherwise the
pipeline trim, NFKC-normalize, lower-case, strip whitespace is applied. -/
def normalizeString (str : String) : String :=
  if str = "" then "" else stripSpaces (lowerStr (nfkcStr (jsTrim str)))

/-- The destructuring swap `[arr[i], arr[j]] = [arr[j], arr[i]]` of
`shuffleArray` (`src/app/page.tsx` line 65), on lists: when both indices
are in bounds the two elements are exchanged, otherwise the list is
unchanged (the source only ever swaps in-bounds indices). -/
def swapL {α : Type} (l : List α) (i j : Nat) : List α :=
  match l.get? i, l.get? j with
  | some x, some y => (l.set i y).set j x
  | _, _ => l

/-- The loop of `shuffleArray` (`src/app/page.tsx` lines 63-66):
`for (let i = newArr.length - 1; i > 0; i--)` swaps position `i` with
position `rand i` (the value `Math.floor(Math.random() * (i + 1))` drawn
at that iteration). -/
def shuffleGo {α : Type} (rand : Nat → Nat) : Nat → List α → List α
  | 0, a => a
  | i + 1, a => shuffleGo rand i (swapL a (i + 1) (rand (i + 1)))

/-- `shuffleArray` of `src/app/page.tsx` (lines 61-68), parameterized by
the random draws `rand`. -/
def shuffleArray {α : Type} (rand : Nat → Nat) (array : List α) : List α :=
  shuffleGo rand (array.length - 1) array

/-- The `Screen` union type of `src/app/page.tsx` (line 33). -/
inductive Screen | MENU | SETUP | GAME | RESULT | WRONG_LIST
deriving DecidableEq

/-- The `GameMode` union type of `src/app/page.tsx` (line 14). -/
inductive GameMode | FLASHCARD | INPUT
deriving DecidableEq

/-- The `OrderType` union type of `src/app/page.tsx` (line 15). -/
inductive OrderType | SEQUENTIAL | RANDOM
deriving DecidableEq

/-- The `'ALL' | 'WRONG'` source selector of `src/app/page.tsx` (line 85). -/
inductive SourceType | ALL | WRONG
deriving DecidableEq

/-- The `GameSettings` type of `src/app/page.tsx` (lines 18-23); the limit
`'ALL'` is `none`, a numeric limit `n` is `some n`. -/
structure GameSettings where
  mode : GameMode
  order : OrderType
  limit : Option Nat
  startIndex : Nat
deriving DecidableEq

/-- The `GameResult` type of `src/app/page.tsx` (lines 26-30). -/
structure GameResult where
  cardId : Nat
  isCorrect : Bool
  userAnswer : Option String
deriving DecidableEq

/-- The mutable state of the application: the `useState` cells of
`FlashcardApp` and `AppContent` in `src/app/page.tsx` that the claims
concern.  `wrongHistory` (`Record<number, number>`) is an association
list from card id to miss count. -/
structure AppState where
  allCards : List Card
  wrongHistory : List (Nat × Nat)
  playQueue : List Card
  gameResults : List GameResult
  screen : Screen
  setupSource : SourceType
  settings : GameSettings
deriving DecidableEq

/-- The read `wrongHistory[c.id] || 0` of the source: a missing entry
counts as zero. -/
def lookupCount (h : List (Nat × Nat)) (k : Nat) : Nat :=
  (h.lookup k).getD 0

/-- The source-card selection of `handleStartGame` (`src/app/page.tsx`
lines 239-241): all cards, or just the cards with a positive miss count. -/
def sourceCards (s : AppState) : List Card :=
  if s.setupSource = SourceType.ALL then s.allCards
  else s.allCards.filter (fun c => 0 < lookupCount s.wrongHistory c.id)

/-- The deck construction of `handleStartGame` (`src/app/page.tsx` lines
243-258): shuffle when the order is random, otherwise drop the start
offset when positive; then truncate to the limit when one is given. -/
def selectDeck (rand : Nat → Nat) (newSettings : GameSettings) (src : List Card) : List Card :=
  let deck :=
    if newSettings.order = OrderType.RANDOM then shuffleArray rand src
    else if 0 < newSettings.startIndex then src.drop newSettings.startIndex else src
  match newSettings.limit with
  | some n => deck.take n
  | none => deck

/-- `handleStartGame` of `src/app/page.tsx` (lines 235-268): the settings
are stored first (`setSettings`), then the deck is built; when it is empty
the handler alerts and returns without touching the play queue, the game
results, or the screen; otherwise the play queue becomes the deck, the
results are cleared and the screen changes to `GAME`. -/
def handleStartGame (rand : Nat → Nat) (newSettings : GameSettings) (s : AppState) : AppState :=
  let deck := selectDeck rand newSettings (sourceCards s)
  if deck = [] then { s with settings := newSettings }
  else { s with settings := newSettings, playQueue := deck, gameResults := [], screen := Screen.GAME }

/-- One increment `newHistory[r.cardId] = (newHistory[r.cardId] || 0) + 1`
on the association list (`src/app/page.tsx` line 277): an existing entry
is incremented in place, a missing key is appended with count 1. -/
def bump (h : List (Nat × Nat)) (k : Nat) : List (Nat × Nat) :=
  if (h.lookup k).isSome then h.map (fun p => if p.1 = k then (p.1, p.2 + 1) else p)
  else h ++ [(k, 1)]

/-- `handleGameFinish` of `src/app/page.tsx` (lines 270-283): store the
results, increment the miss count of every incorrectly answered card, and
move to the result screen. -/
def handleGameFinish (results : List GameResult) (s : AppState) : AppState :=
  { s with
    gameResults := results,
    wrongHistory := results.foldl (fun h r => if r.isCorrect then h else bump h r.cardId) s.wrongHistory,
    screen := Screen.RESULT }

/-- One user interaction: starting a game, finishing a game (the results
reported by `GameScreen` only ever carry ids of cards of the play queue,
and `GameScreen` is only mounted on the `GAME` screen), or a navigation
that changes only the screen and the setup source. -/
inductive Step : AppState → AppState → Prop
  | start (rand : Nat → Nat) (newSettings : GameSettings) (s : AppState) :
      Step s (handleStartGame rand newSettings s)
  | finish (results : List GameResult) (s : AppState)
      (hmem : ∀ r ∈ results, r.cardId ∈ s.playQueue.map Card.id)
      (hscreen : s.screen = Screen.GAME) :
      Step s (handleGameFinish results s)
  | nav (scr : Screen) (src : SourceType) (s : AppState) :
      Step s { s with screen := scr, setupSource := src }

/-- The state right after the one-time load effect (`src/app/page.tsx`
lines 88-165): the fetched (or fallback) text is parsed into `allCards`,
every other cell has its `useState` initial value. -/
def initState (text : String) : AppState :=
  { allCards := parseCSV text, wrongHistory := [], playQueue := [], gameResults := [],
    screen := Screen.MENU, setupSource := SourceType.ALL,
    settings := { mode := GameMode.FLASHCARD, order := OrderType.SEQUENTIAL,
                  limit := none, startIndex := 0 } }

/-- A state reachable by user interactions from a freshly loaded app. -/
def Reachable (text : String) (s : AppState) : Prop :=
  Relation.ReflTransGen Step (initState text) s

/-- The strengthened reachability invariant: every miss-count entry has a
key among the master list's ids and a positive count, and every card of
the play queue comes from the master list. -/
def InvFull (s : AppState) : Prop :=
  (∀ p ∈ s.wrongHistory, p.1 ∈ s.allCards.map Card.id ∧ 0 < p.2) ∧
  (∀ c ∈ s.playQueue, c.id ∈ s.allCards.map Card.id)

namespace Part000

/-- The row-retention check of the second `parseCSV`
(`src/unnamed/part_000` lines 51-55), identical in text to the one in
`src/app/page.tsx`. -/
def pushRow (rows : List (List String)) (newRow : List String) : List (List String) :=
  if newRow.length > 1 ∨ (newRow.length = 1 ∧ newRow.headD "" ≠ "") then
    rows ++ [newRow]
  else
    rows

/-- The character scan of the second `parseCSV` (`src/unnamed/part_000`
lines 30-67), embedded exactly as the one of `src/app/page.tsx`. -/
def scanCSV : List Char → List (List String) → List String → String → Bool → List (List String)
  | [], rows, currentRow, currentCell, _ =>
    if currentCell ≠ "" ∨ currentRow ≠ [] then rows ++ [currentRow ++ [currentCell]] else rows
  | [c], rows, currentRow, currentCell, insideQuotes =>
    if c = '"' then
      scanCSV [] rows currentRow currentCell (!insideQuotes)
    else if c = ',' ∧ insideQuotes = false then
      scanCSV [] rows (currentRow ++ [currentCell]) "" insideQuotes
    else if (c = '\r' ∨ c = '\n') ∧ insideQuotes = false then
      scanCSV [] (pushRow rows (currentRow ++ [currentCell])) [] "" insideQuotes
    else
      scanCSV [] rows currentRow (currentCell.push c) insideQuotes
  | c :: d :: rest, rows, currentRow, currentCell, insideQuotes =>
    if c = '"' then
      if insideQuotes ∧ d = '"' then
        scanCSV rest rows currentRow (currentCell.push '"') insideQuotes
      else
        scanCSV (d :: rest) rows currentRow currentCell (!insideQuotes)
    else if c = ',' ∧ insideQuotes = false then
      scanCSV (d :: rest) rows (currentRow ++ [currentCell]) "" insideQuotes
    else if (c = '\r' ∨ c = '\n') ∧ insideQuotes = false then
      if c = '\r' ∧ d = '\n' then
        scanCSV rest (pushRow rows (currentRow ++ [currentCell])) [] "" insideQuotes
      else
        scanCSV (d :: rest) (pushRow rows (currentRow ++ [currentCell])) [] "" insideQuotes
    else
      scanCSV (d :: rest) rows currentRow (currentCell.push c) insideQuotes

/-- The record-building loop of the second `parseCSV`
(`src/unnamed/part_000` lines 70-82). -/
def rowsToCards : List (List String) → Nat → List Card
  | [], _ => []
  | row :: rest, i =>
    match row with
    | q :: a :: _ => { id := i, question := jsTrim q, answer := jsTrim a } :: rowsToCards rest (i + 1)
    | _ => rowsToCards rest (i + 1)

/-- The second `parseCSV` (`src/unnamed/part_000` lines 23-84). -/
def parseCSV (text : String) : List Card :=
  rowsToCards ((scanCSV text.data [] [] "" false).drop 1) 1

end Part000

/-- The two-line sample input of the specification. -/
def sampleQA : String := "Q,A\nApple,りんご\n"

/-- A fully quoted field with an embedded comma and an embedded newline. -/
def sampleQuoted : String := "\"a,b\nc\""

/-- A quoted field with doubled quotes. -/
def sampleDoubled : String := "\"he said \"\"hi\"\"\""

/-- Padded mixed-case input for the normalizer. -/
def sampleTokyoPadded : String := "  Tokyo "

/-- Lower-case input for the normalizer. -/
def sampleTokyoLower : String := "tokyo"

/-- Half-width katakana input for the normalizer. -/
def sampleNekoHalf : String := "ﾈｺ"

/-- Full-width katakana input for the normalizer. -/
def sampleNekoFull : String := "ネコ"

/-- The empty source text. -/
def emptyText : String := ""

/-- A small concrete source text used to exhibit reachable states. -/
def demoText : String := "Q,A\nApple,Red\n"

/-- A concrete random source (always drawing index 0). -/
def demoRand : Nat → Nat := fun _ => 0

/-- Concrete quiz settings: flashcard mode, sequential order, no limit,
start at the beginning. -/
def demoSettings : GameSettings :=
  { mode := GameMode.FLASHCARD, order := OrderType.SEQUENTIAL, limit := none, startIndex := 0 }

/-- Concrete results: the only card of the demo deck answered wrongly. -/
def demoResults : List GameResult := [{ cardId := 1, isCorrect := false, userAnswer := none }]

/-- The demo state after starting a game from the freshly loaded app. -/
def demoState1 : AppState := handleStartGame demoRand demoSettings (initState demoText)

/-- The demo state after finishing that game with one miss. -/
def demoState2 : AppState := handleGameFinish demoResults demoState1

/-- A concrete card list for the shuffle witness. -/
def demoCards : List Card := [⟨1, "Apple", "Red"⟩, ⟨2, "Sky", "Blue"⟩, ⟨3, "Leaf", "Green"⟩]

/-- Characters whose code is below the half-width block are fixed by the
NFKC table. -/
theorem nfkcChar_eq_self (c : Char) (h : c.toNat < 65377) : nfkcChar c = c := by
  unfold nfkcChar
  have h1 : c ≠ 'ﾈ' := fun e => by rw [e] at h; exact absurd h (by decide)
  have h2 : c ≠ 'ｺ' := fun e => by rw [e] at h; exact absurd h (by decide)
  have h3 : c ≠ 'ｱ' := fun e => by rw [e] at h; exact absurd h (by decide)
  have h4 : c ≠ 'ｲ' := fun e => by rw [e] at h; exact absurd h (by decide)
  have h5 : c ≠ 'ｶ' := fun e => by rw [e] at h; exact absurd h (by decide)
  rw [if_neg h1, if_neg h2, if_neg h3, if_neg h4, if_neg h5]

/-- The code of a lowered character, by cases on the ASCII-uppercase test. -/
theorem toNat_toLowerCh (c : Char) :
    (toLowerCh c).toNat = if 65 ≤ c.toNat ∧ c.toNat ≤ 90 then c.toNat + 32 else c.toNat := by
  unfold toLowerCh
  split
  next h =>
    show (c.val + 32).toNat = _
    have h90 : c.val.toNat ≤ 90 := h.2
    have hs : UInt32.size = 4294967296 := rfl
    have h32 : (32 : UInt32).toNat = 32 := rfl
    rw [UInt32.toNat_add, h32]
    exact Nat.mod_eq_of_lt (by omega)
  next h => rfl

/-- A character that is not ASCII uppercase is fixed by lowering. -/
theorem toLowerCh_eq_self (d : Char) (h : ¬(65 ≤ d.toNat ∧ d.toNat ≤ 90)) : toLowerCh d = d := by
  unfold toLowerCh
  rw [dif_neg h]

/-- Lowering is idempotent. -/
theorem toLowerCh_idem (c : Char) : toLowerCh (toLowerCh c) = toLowerCh c := by
  by_cases h : 65 ≤ c.toNat ∧ c.toNat ≤ 90
  · exact toLowerCh_eq_self _ (by rw [toNat_toLowerCh, if_pos h]; omega)
  · rw [toLowerCh_eq_self _ h]
    exact toLowerCh_eq_self _ h

/-- Characters produced by normalizing then lowering are fixed by the NFKC
table. -/
theorem nfkc_lower_fix (x : Char) :
    nfkcChar (toLowerCh (nfkcChar x)) = toLowerCh (nfkcChar x) := by
  by_cases h1 : x = 'ﾈ'; · rw [h1]; decide
  by_cases h2 : x = 'ｺ'; · rw [h2]; decide
  by_cases h3 : x = 'ｱ'; · rw [h3]; decide
  by_cases h4 : x = 'ｲ'; · rw [h4]; decide
  by_cases h5 : x = 'ｶ'; · rw [h5]; decide
  have hx : nfkcChar x = x := by
    unfold nfkcChar; rw [if_neg h1, if_neg h2, if_neg h3, if_neg h4, if_neg h5]
  rw [hx]
  by_cases hu : 65 ≤ x.toNat ∧ x.toNat ≤ 90
  · exact nfkcChar_eq_self _ (by rw [toNat_toLowerCh, if_pos hu]; omega)
  · rw [toLowerCh_eq_self _ hu]
    exact hx

/-- `dropWhile` is the identity on a list none of whose elements satisfy
the predicate. -/
theorem dropWhile_eq_self_of {p : Char → Bool} (l : List Char) (h : ∀ c ∈ l, p c = false) :
    l.dropWhile p = l := by
  cases l with
  | nil => rfl
  | cons a l =>
    rw [List.dropWhile_cons, if_neg]
    simp [h a (List.mem_cons_self a l)]

/-- Trimming is the identity on a whitespace-free character list. -/
theorem trimChars_eq_self (l : List Char) (h : ∀ c ∈ l, c.isWhitespace = false) :
    trimChars l = l := by
  unfold trimChars
  rw [dropWhile_eq_self_of l h, dropWhile_eq_self_of, List.reverse_reverse]
  intro c hc
  exact h c (List.mem_reverse.mp hc)

/-- `map` is the identity when the function fixes every element. -/
theorem map_eq_self_of {f : Char → Char} (l : List Char) (h : ∀ c ∈ l, f c = c) :
    l.map f = l := by
  induction l with
  | nil => rfl
  | cons a l ih =>
    rw [List.map_cons, h a (List.mem_cons_self a l), ih (fun c hc => h c (List.mem_cons_of_mem a hc))]

/-- Every id produced by the record-building loop is at least the starting
counter. -/
theorem rowsToCards_id_ge : ∀ (rows : List (List String)) (i : Nat),
    ∀ c ∈ rowsToCards rows i, i ≤ c.id := by
  intro rows
  induction rows with
  | nil => intro i c hc; simp [rowsToCards] at hc
  | cons row rest ih =>
    intro i c hc
    match row with
    | [] =>
      have := ih (i + 1) c (by simpa [rowsToCards] using hc)
      omega
    | [q] =>
      have := ih (i + 1) c (by simpa [rowsToCards] using hc)
      omega
    | q :: a :: r2 =>
      rw [rowsToCards] at hc
      rcases List.mem_cons.mp hc with h1 | h2
      · rw [h1]
      · have := ih (i + 1) c h2
        omega

/-- The ids produced by the record-building loop are strictly increasing. -/
theorem rowsToCards_chain : ∀ (rows : List (List String)) (i : Nat),
    ((rowsToCards rows i).map Card.id).Chain' (· < ·) := by
  intro rows
  induction rows with
  | nil => intro i; simp [rowsToCards]
  | cons row rest ih =>
    intro i
    match row with
    | [] => simpa [rowsToCards] using ih (i + 1)
    | [q] => simpa [rowsToCards] using ih (i + 1)
    | q :: a :: r2 =>
      rw [rowsToCards]
      rw [List.map_cons, List.chain'_cons']
      refine ⟨?_, ih (i + 1)⟩
      intro y hy
      obtain ⟨c, hc, hcy⟩ := List.mem_map.mp (List.mem_of_mem_head? hy)
      have := rowsToCards_id_ge rest (i + 1) c hc
      show i < y
      omega

/-- Each record points back to its source row: the row at offset
`c.id - i` (zero-based) of the processed row list has at least two fields,
and the record's question and answer are its first two fields trimmed. -/
theorem rowsToCards_src : ∀ (rows : List (List String)) (i : Nat),
    ∀ c ∈ rowsToCards rows i, i ≤ c.id ∧
      ∃ q a r2, rows.get? (c.id - i) = some (q :: a :: r2) ∧
        c.question = jsTrim q ∧ c.answer = jsTrim a := by
  intro rows
  induction rows with
  | nil => intro i c hc; simp [rowsToCards] at hc
  | cons row rest ih =>
    intro i c hc
    match row with
    | [] =>
      obtain ⟨hge, q, a, r2, hget, hq, ha⟩ := ih (i + 1) c (by simpa [rowsToCards] using hc)
      refine ⟨by omega, q, a, r2, ?_, hq, ha⟩
      have : c.id - i = (c.id - (i + 1)) + 1 := by omega
      rw [this, List.get?_cons_succ]
      exact hget
    | [q0] =>
      obtain ⟨hge, q, a, r2, hget, hq, ha⟩ := ih (i + 1) c (by simpa [rowsToCards] using hc)
      refine ⟨by omega, q, a, r2, ?_, hq, ha⟩
      have : c.id - i = (c.id - (i + 1)) + 1 := by omega
      rw [this, List.get?_cons_succ]
      exact hget
    | q :: a :: r2 =>
      rw [rowsToCards] at hc
      rcases List.mem_cons.mp hc with h1 | h2
      · rw [h1]
        exact ⟨Nat.le_refl i, q, a, r2, by simp, rfl, rfl⟩
      · obtain ⟨hge, q1, a1, r21, hget, hq, ha⟩ := ih (i + 1) c h2
        refine ⟨by omega, q1, a1, r21, ?_, hq, ha⟩
        have : c.id - i = (c.id - (i + 1)) + 1 := by omega
        rw [this, List.get?_cons_succ]
        exact hget

/-- Full characterisation of the record-building loop as a filter-map over
the rows enumerated from the starting counter. -/
theorem rowsToCards_eq_filterMap : ∀ (rows : List (List String)) (i : Nat),
    rowsToCards rows i = (List.enumFrom i rows).filterMap
      (fun p => match p.2 with
        | q :: a :: _ => some { id := p.1, question := jsTrim q, answer := jsTrim a }
        | _ => none) := by
  intro rows
  induction rows with
  | nil => intro i; rfl
  | cons row rest ih =>
    intro i
    rw [List.enumFrom_cons, List.filterMap_cons]
    match row with
    | [] => simpa [rowsToCards] using ih (i + 1)
    | [q] => simpa [rowsToCards] using ih (i + 1)
    | q :: a :: r2 =>
      rw [rowsToCards]
      simpa using ih (i + 1)

/-- Setting one element exchanges its multiset contribution. -/
theorem multiset_set {α : Type} (l : List α) (i : Nat) (h : i < l.length) (b : α) :
    ((l.set i b : List α) : Multiset α) + {l.get ⟨i, h⟩} = (l : Multiset α) + {b} := by
  rw [List.get_eq_getElem]
  have hl : l = l.take i ++ l[i] :: l.drop (i + 1) := by
    conv_lhs => rw [← List.take_append_drop i l]
    rw [List.drop_eq_getElem_cons h]
  rw [List.set_eq_take_cons_drop b h]
  conv_rhs => rw [hl]
  rw [← Multiset.coe_add, ← Multiset.coe_add, ← Multiset.cons_coe, ← Multiset.cons_coe,
    ← Multiset.singleton_add, ← Multiset.singleton_add]
  abel

/-- A swap leaves the multiset of elements unchanged. -/
theorem swapL_multiset {α : Type} (l : List α) (i j : Nat) :
    ((swapL l i j : List α) : Multiset α) = l := by
  unfold swapL
  split
  next x y hx hy =>
    obtain ⟨hi, hxv⟩ := List.get?_eq_some.mp hx
    obtain ⟨hj, hyv⟩ := List.get?_eq_some.mp hy
    have hj2 : j < (l.set i y).length := by rw [List.length_set]; exact hj
    have A := multiset_set l i hi y
    have B := multiset_set (l.set i y) j hj2 x
    have hyy : (l.set i y).get ⟨j, hj2⟩ = y := by
      by_cases hij : i = j
      · subst hij
        rw [List.get_eq_getElem, List.getElem_set_self]
      · rw [List.get_eq_getElem, List.getElem_set_ne hij]
        rw [List.get_eq_getElem] at hyv
        exact hyv
    rw [hyy] at B
    rw [hxv] at A
    exact add_right_cancel (B.trans A)
  next => rfl

/-- The shuffle loop leaves the multiset of elements unchanged. -/
theorem shuffleGo_multiset {α : Type} (rand : Nat → Nat) (n : Nat) (l : List α) :
    ((shuffleGo rand n l : List α) : Multiset α) = l := by
  induction n generalizing l with
  | zero => rfl
  | succ n ih => rw [shuffleGo, ih, swapL_multiset]

/-- The shuffle leaves the multiset of elements unchanged. -/
theorem shuffleArray_multiset {α : Type} (rand : Nat → Nat) (l : List α) :
    ((shuffleArray rand l : List α) : Multiset α) = l :=
  shuffleGo_multiset rand (l.length - 1) l

/-- An element of the shuffled list is an element of the original. -/
theorem mem_shuffleArray {α : Type} {rand : Nat → Nat} {l : List α} {c : α}
    (h : c ∈ shuffleArray rand l) : c ∈ l := by
  rw [← Multiset.mem_coe, shuffleArray_multiset rand l] at h
  exact Multiset.mem_coe.mp h

/-- The deck built by `selectDeck` only contains source cards. -/
theorem mem_selectDeck {rand : Nat → Nat} {ns : GameSettings} {src : List Card} {c : Card}
    (h : c ∈ selectDeck rand ns src) : c ∈ src := by
  unfold selectDeck at h
  have hdeck : ∀ d, d ∈ (if ns.order = OrderType.RANDOM then shuffleArray rand src
      else if 0 < ns.startIndex then src.drop ns.startIndex else src) → d ∈ src := by
    intro d hd
    split at hd
    · exact mem_shuffleArray hd
    · split at hd
      · exact List.mem_of_mem_drop hd
      · exact hd
  rcases hlim : ns.limit with _ | n
  · rw [hlim] at h
    exact hdeck c h
  · rw [hlim] at h
    exact hdeck c (List.mem_of_mem_take h)

/-- The selected source cards are master-list cards. -/
theorem mem_sourceCards {s : AppState} {c : Card} (h : c ∈ sourceCards s) : c ∈ s.allCards := by
  unfold sourceCards at h
  split at h
  · exact h
  · exact List.mem_of_mem_filter h

/-- `bump` preserves a key property and positivity of the counts. -/
theorem bump_prop {P : Nat → Prop} {h : List (Nat × Nat)} {k : Nat}
    (hh : ∀ p ∈ h, P p.1 ∧ 0 < p.2) (hk : P k) :
    ∀ p ∈ bump h k, P p.1 ∧ 0 < p.2 := by
  intro p hp
  unfold bump at hp
  split at hp
  · obtain ⟨q, hq, hqp⟩ := List.mem_map.mp hp
    by_cases hqk : q.1 = k
    · rw [if_pos hqk] at hqp
      have := hh q hq
      rw [← hqp]
      exact ⟨by simpa [hqk] using hk, by omega⟩
    · rw [if_neg hqk] at hqp
      rw [← hqp]
      exact hh q hq
  · rcases List.mem_append.mp hp with hp1 | hp2
    · exact hh p hp1
    · have : p = (k, 1) := by simpa using hp2
      rw [this]
      exact ⟨hk, by omega⟩

/-- The result fold of `handleGameFinish` preserves the key property and
positivity of the counts. -/
theorem foldl_bump_prop {P : Nat → Prop} (results : List GameResult) :
    ∀ (h : List (Nat × Nat)), (∀ p ∈ h, P p.1 ∧ 0 < p.2) →
    (∀ r ∈ results, P r.cardId) →
    ∀ p ∈ results.foldl (fun h r => if r.isCorrect then h else bump h r.cardId) h,
      P p.1 ∧ 0 < p.2 := by
  induction results with
  | nil => intro h hh _ p hp; exact hh p hp
  | cons r rest ih =>
    intro h hh hres p hp
    rw [List.foldl_cons] at hp
    by_cases hc : r.isCorrect
    · rw [if_pos hc] at hp
      exact ih h hh (fun r hr => hres r (List.mem_cons_of_mem _ hr)) p hp
    · rw [if_neg hc] at hp
      exact ih _ (bump_prop hh (hres r (List.mem_cons_self _ _)))
        (fun r hr => hres r (List.mem_cons_of_mem _ hr)) p hp

/-- Every interaction preserves the strengthened invariant. -/
theorem step_preserves_inv {a b : AppState} (hstep : Step a b) (hinv : InvFull a) : InvFull b := by
  obtain ⟨hw, hq⟩ := hinv
  cases hstep with
  | start rand ns s =>
    simp only [handleStartGame]
    split
    · exact ⟨hw, hq⟩
    next hne =>
      refine ⟨hw, ?_⟩
      intro c hc
      have h1 : c ∈ sourceCards a := mem_selectDeck hc
      have h2 : c ∈ a.allCards := mem_sourceCards h1
      exact List.mem_map.mpr ⟨c, h2, rfl⟩
  | finish results s hmem hscreen =>
    unfold handleGameFinish
    refine ⟨?_, hq⟩
    intro p hp
    refine foldl_bump_prop results a.wrongHistory hw ?_ p hp
    intro r hr
    obtain ⟨c, hc, hcid⟩ := List.mem_map.mp (hmem r hr)
    rw [← hcid]
    exact hq c hc
  | nav scr src s =>
    exact ⟨hw, hq⟩

/-- Every reachable state satisfies the strengthened invariant. -/
theorem reachable_inv {text : String} {s : AppState} (h : Reachable text s) : InvFull s := by
  unfold Reachable at h
  induction h with
  | refl =>
    exact ⟨fun p hp => absurd hp (List.not_mem_nil p), fun c hc => absurd hc (List.not_mem_nil c)⟩
  | tail hab hbc ih =>
    exact step_preserves_inv hbc ih

/-- The two retention checks are the same function. -/
theorem part000_pushRow_eq (rows : List (List String)) (newRow : List String) :
    Part000.pushRow rows newRow = pushRow rows newRow := rfl

/-- The two character scans are the same function. -/
theorem part000_scanCSV_eq (l : List Char) (rows : List (List String)) (row : List String)
    (cell : String) (q : Bool) :
    Part000.scanCSV l rows row cell q = scanCSV l rows row cell q := by
  induction l, rows, row, cell, q using Part000.scanCSV.induct with
  | case1 rows row cell q => rfl
  | _ =>
    rw [Part000.scanCSV, scanCSV]
    try split_ifs <;> simp_all [part000_pushRow_eq]

/-- The two record-building loops are the same function. -/
theorem part000_rowsToCards_eq (rows : List (List String)) (i : Nat) :
    Part000.rowsToCards rows i = rowsToCards rows i := by
  induction rows generalizing i with
  | nil => rfl
  | cons row rest ih =>
    match row with
    | [] => simpa [Part000.rowsToCards, rowsToCards] using ih (i + 1)
    | [q] => simpa [Part000.rowsToCards, rowsToCards] using ih (i + 1)
    | q :: a :: r2 =>
      rw [Part000.rowsToCards, rowsToCards, ih (i + 1)]

/-- The degenerate single-empty-field row of a blank line is never
retained. -/
theorem pushRow_blank (rows : List (List String)) : pushRow rows [""] = rows := by
  unfold pushRow
  rw [if_neg (by decide)]

/-- C1 (counterexample): on the specification's own sample input,
`parseCSV` does not assign identifier 2 to the first data row — the claimed
output list is not the parse result. -/
theorem parse_sample_id_counterexample :
    parseCSV sampleQA ≠ [{ id := 2, question := "Apple", answer := "りんご" }] := by
  decide

/-- C1 (amended): `parseCSV` preserves row order — the identifiers of the
output records are strictly increasing in output order — and each record's
identifier equals the row's 1-based position among the retained rows with
the header excluded (the row at zero-based offset `c.id - 1` after dropping
the header is the record's source row, with at least two fields whose
trimmed first two fields are the record's question and answer), so the
sample input yields exactly one record with identifier 1. -/
theorem parse_sample_id_amended :
    parseCSV sampleQA = [{ id := 1, question := "Apple", answer := "りんご" }] ∧
    (∀ text, ((parseCSV text).map Card.id).Chain' (· < ·)) ∧
    (∀ text, ∀ c ∈ parseCSV text, 1 ≤ c.id ∧
      ∃ q a r2, ((parseRows text).drop 1).get? (c.id - 1) = some (q :: a :: r2) ∧
        c.question = jsTrim q ∧ c.answer = jsTrim a) :=
  ⟨by decide, fun _ => rowsToCards_chain _ 1,
   fun text c hc => rowsToCards_src ((parseRows text).drop 1) 1 c hc⟩

/-- C1 (witness): the amended theorem's general conjunct at the sample
input and its only record, together with the sample evaluation. -/
theorem parse_sample_id_amended_witness :
    parseCSV sampleQA = [{ id := 1, question := "Apple", answer := "りんご" }] ∧
    (1 ≤ (⟨1, "Apple", "りんご"⟩ : Card).id ∧
      ∃ q a r2, ((parseRows sampleQA).drop 1).get? ((⟨1, "Apple", "りんご"⟩ : Card).id - 1) =
          some (q :: a :: r2) ∧
        (⟨1, "Apple", "りんご"⟩ : Card).question = jsTrim q ∧
        (⟨1, "Apple", "りんご"⟩ : Card).answer = jsTrim a) :=
  ⟨parse_sample_id_amended.1,
   parse_sample_id_amended.2.2 sampleQA ⟨1, "Apple", "りんご"⟩ (by decide)⟩

/-- C2: within one parse result the identifiers are pairwise distinct, and
every record's identifier is the 1-based offset of its source row within
the parsed row sequence with the header row excluded: after dropping the
header, the row at zero-based offset `c.id - 1` is a row with at least two
fields whose first two fields, trimmed, are the record's question and
answer (so the first data row receives identifier 1). -/
theorem parse_id_offset_unique (text : String) (c : Card) (hc : c ∈ parseCSV text) :
    ((parseCSV text).map Card.id).Nodup ∧ 1 ≤ c.id ∧
    ∃ q a r2, ((parseRows text).drop 1).get? (c.id - 1) = some (q :: a :: r2) ∧
      c.question = jsTrim q ∧ c.answer = jsTrim a := by
  obtain ⟨hge, hrow⟩ := rowsToCards_src ((parseRows text).drop 1) 1 c hc
  refine ⟨?_, hge, hrow⟩
  have hchain := rowsToCards_chain ((parseRows text).drop 1) 1
  exact (List.chain'_iff_pairwise.mp hchain).imp (fun hlt => Nat.ne_of_lt hlt)

/-- C2 (witness): the theorem at the sample input and its only record. -/
theorem parse_id_offset_unique_witness :
    ((parseCSV sampleQA).map Card.id).Nodup ∧ 1 ≤ (⟨1, "Apple", "りんご"⟩ : Card).id ∧
    ∃ q a r2, ((parseRows sampleQA).drop 1).get? ((⟨1, "Apple", "りんご"⟩ : Card).id - 1) =
        some (q :: a :: r2) ∧
      (⟨1, "Apple", "りんご"⟩ : Card).question = jsTrim q ∧
      (⟨1, "Apple", "りんご"⟩ : Card).answer = jsTrim a :=
  parse_id_offset_unique sampleQA ⟨1, "Apple", "りんご"⟩ (by decide)

/-- C3: inside a quoted field a comma, a carriage return, or a line feed is
appended to the current field as literal content, and a double-quote
immediately followed by another double-quote contributes exactly one
literal double-quote with the second quote consumed; the fully quoted
sample fields parse to the claimed literal contents. -/
theorem quoted_field_literal_content :
    (∀ l rows row cell, scanCSV (',' :: l) rows row cell true = scanCSV l rows row (cell.push ',') true) ∧
    (∀ l rows row cell, scanCSV ('\r' :: l) rows row cell true = scanCSV l rows row (cell.push '\r') true) ∧
    (∀ l rows row cell, scanCSV ('\n' :: l) rows row cell true = scanCSV l rows row (cell.push '\n') true) ∧
    (∀ l rows row cell, scanCSV ('"' :: '"' :: l) rows row cell true = scanCSV l rows row (cell.push '"') true) ∧
    parseRows sampleQuoted = [["a,b\nc"]] ∧
    parseRows sampleDoubled = [["he said \"hi\""]] := by
  refine ⟨?_, ?_, ?_, ?_, by decide, by decide⟩
  · intro l rows row cell
    cases l <;> simp [scanCSV]
  · intro l rows row cell
    cases l <;> simp [scanCSV]
  · intro l rows row cell
    cases l <;> simp [scanCSV]
  · intro l rows row cell
    simp [scanCSV]

/-- C4: `parseCSV` is a total function whose output is characterised row by
row: every retained non-header row with at least two fields yields exactly
one record whose question and answer are the whitespace-trimmed first and
second fields (any further fields ignored), rows with fewer than two fields
yield no record regardless of position; and a completed row that is exactly
one empty field — a blank line — contributes no row to the scanned rows. -/
theorem parse_total_row_filtering :
    (∀ rows i, rowsToCards rows i = (List.enumFrom i rows).filterMap
      (fun p => match p.2 with
        | q :: a :: _ => some { id := p.1, question := jsTrim q, answer := jsTrim a }
        | _ => none)) ∧
    (∀ text, parseCSV text = (List.enumFrom 1 ((parseRows text).drop 1)).filterMap
      (fun p => match p.2 with
        | q :: a :: _ => some { id := p.1, question := jsTrim q, answer := jsTrim a }
        | _ => none)) ∧
    (∀ rows, pushRow rows [""] = rows) ∧
    (∀ l rows, scanCSV ('\n' :: l) rows [] "" false = scanCSV l rows [] "" false) := by
  refine ⟨rowsToCards_eq_filterMap, ?_, pushRow_blank, ?_⟩
  · intro text
    exact rowsToCards_eq_filterMap _ 1
  · intro l rows
    cases l <;> simp [scanCSV, pushRow_blank]

/-- C5: `normalizeString` is the pipeline trim, NFKC-normalize, lower-case,
remove-all-whitespace applied in this order, the empty string normalizes to
the empty string, and the two specification examples hold (padded
mixed-case Tokyo, and half-width versus full-width katakana). -/
theorem normalize_pipeline_spec :
    (∀ s, normalizeString s = stripSpaces (lowerStr (nfkcStr (jsTrim s)))) ∧
    normalizeString emptyText = emptyText ∧
    normalizeString sampleTokyoPadded = normalizeString sampleTokyoLower ∧
    normalizeString sampleNekoHalf = normalizeString sampleNekoFull := by
  refine ⟨?_, by decide, by decide, by decide⟩
  intro s
  by_cases hs : s = ""
  · rw [hs]
    rfl
  · unfold normalizeString
    rw [if_neg hs]

/-- C6: `normalizeString` is idempotent. -/
theorem normalize_idempotent (s : String) :
    normalizeString (normalizeString s) = normalizeString s := by
  by_cases hs : s = ""
  · rw [hs]
    rfl
  · set t := normalizeString s with htdef
    by_cases ht0 : t = ""
    · rw [ht0]
      rfl
    · have htdata : t.data =
          (((trimChars s.data).map nfkcChar).map toLowerCh).filter (fun c => !c.isWhitespace) := by
        rw [htdef]
        unfold normalizeString
        rw [if_neg hs]
        rfl
      have hchars : ∀ c ∈ t.data, c.isWhitespace = false ∧ nfkcChar c = c ∧ toLowerCh c = c := by
        intro c hc
        rw [htdata] at hc
        have h1 := List.of_mem_filter hc
        have h2 := List.mem_of_mem_filter hc
        obtain ⟨x, hx, hxc⟩ := List.mem_map.mp h2
        obtain ⟨y, hy, hyx⟩ := List.mem_map.mp hx
        refine ⟨by simpa using h1, ?_, ?_⟩
        · rw [← hxc, ← hyx]
          exact nfkc_lower_fix y
        · rw [← hxc]
          exact toLowerCh_idem x
      show normalizeString t = t
      unfold normalizeString
      rw [if_neg ht0]
      apply String.ext
      show ((((trimChars t.data).map nfkcChar).map toLowerCh).filter (fun c => !c.isWhitespace)) = t.data
      rw [trimChars_eq_self _ (fun c hc => (hchars c hc).1)]
      rw [map_eq_self_of _ (fun c hc => (hchars c hc).2.1)]
      rw [map_eq_self_of _ (fun c hc => (hchars c hc).2.2)]
      rw [List.filter_eq_self.mpr]
      intro c hc
      simp [(hchars c hc).1]

/-- C7: for every outcome of the random source (every draw at index `i`
lies at or before `i`), the shuffle returns a permutation of its input —
the multiset of elements, and hence of identifiers, is unchanged, so a
selection without a limit yields the full source exactly once each — and
it iterates from the last index down to the second, at each step swapping
the current element with the drawn element. -/
theorem shuffle_is_permutation {α : Type} (rand : Nat → Nat) (l : List α)
    (hrand : ∀ i, rand i ≤ i) :
    ((shuffleArray rand l : List α) : Multiset α) = (l : Multiset α) ∧
    (∀ lc : List Card, (((shuffleArray rand lc).map Card.id : List Nat) : Multiset Nat) =
      ((lc.map Card.id : List Nat) : Multiset Nat)) ∧
    shuffleArray rand l = shuffleGo rand (l.length - 1) l ∧
    (∀ i a, shuffleGo rand (i + 1) (a : List α) = shuffleGo rand i (swapL a (i + 1) (rand (i + 1)))) := by
  refine ⟨shuffleArray_multiset rand l, ?_, rfl, fun i a => rfl⟩
  intro lc
  rw [← Multiset.map_coe, ← Multiset.map_coe, shuffleArray_multiset rand lc]

/-- C7 (witness): the permutation property at a concrete random source and
deck. -/
theorem shuffle_is_permutation_witness :
    ((shuffleArray demoRand demoCards : List Card) : Multiset Card) = (demoCards : Multiset Card) :=
  (shuffle_is_permutation demoRand demoCards (fun i => Nat.zero_le i)).1

/-- C8: when the selected deck is empty, starting a game changes neither
the screen nor the play queue nor the game results (the session does not
start); and an empty source always selects an empty deck, so selection
never yields a non-empty queue from an empty source. -/
theorem start_game_empty_guard (rand : Nat → Nat) (ns : GameSettings) (s : AppState) :
    (selectDeck rand ns (sourceCards s) = [] →
      (handleStartGame rand ns s).screen = s.screen ∧
      (handleStartGame rand ns s).playQueue = s.playQueue ∧
      (handleStartGame rand ns s).gameResults = s.gameResults) ∧
    (sourceCards s = [] → selectDeck rand ns (sourceCards s) = []) := by
  constructor
  · intro h
    simp only [handleStartGame]
    rw [if_pos h]
    exact ⟨rfl, rfl, rfl⟩
  · intro h
    rw [h]
    unfold selectDeck
    cases hord : ns.order <;> cases hlim : ns.limit <;>
      simp [hord, hlim, shuffleArray, shuffleGo]

/-- C8 (witness): both parts at a concrete state whose source is empty. -/
theorem start_game_empty_guard_witness :
    ((handleStartGame demoRand demoSettings (initState emptyText)).screen =
        (initState emptyText).screen ∧
      (handleStartGame demoRand demoSettings (initState emptyText)).playQueue =
        (initState emptyText).playQueue ∧
      (handleStartGame demoRand demoSettings (initState emptyText)).gameResults =
        (initState emptyText).gameResults) ∧
    selectDeck demoRand demoSettings (sourceCards (initState emptyText)) = [] :=
  ⟨(start_game_empty_guard demoRand demoSettings (initState emptyText)).1 (by decide),
   (start_game_empty_guard demoRand demoSettings (initState emptyText)).2 (by decide)⟩

/-- C9: in every reachable state of the application, every entry of the
miss-count table has a key belonging to the identifier set of the master
card list and a positive count (absence meaning zero misses). -/
theorem wrong_history_invariant (text : String) (s : AppState) (h : Reachable text s) :
    ∀ p ∈ s.wrongHistory, p.1 ∈ s.allCards.map Card.id ∧ 0 < p.2 :=
  (reachable_inv h).1

/-- C9 (witness): the invariant at a concrete reachable state with one
recorded miss. -/
theorem wrong_history_invariant_witness :
    (1 : Nat) ∈ demoState2.allCards.map Card.id ∧ 0 < (1 : Nat) := by
  have h1 : Step (initState demoText) demoState1 :=
    Step.start demoRand demoSettings (initState demoText)
  have h2 : Step demoState1 demoState2 :=
    Step.finish demoResults demoState1 (by decide) (by decide)
  have hreach : Reachable demoText demoState2 :=
    Relation.ReflTransGen.tail (Relation.ReflTransGen.tail Relation.ReflTransGen.refl h1) h2
  exact wrong_history_invariant demoText demoState2 hreach (1, 1) (by decide)

/-- C10: the CSV parser of `src/app/page.tsx` and the CSV parser of
`src/unnamed/part_000` compute the same function: on every input text the
two record lists are identical. -/
theorem parseCSV_implementations_agree (text : String) :
    parseCSV text = Part000.parseCSV text := by
  unfold parseCSV Part000.parseCSV parseRows
  rw [part000_scanCSV_eq, part000_rowsToCards_eq]
